import Mathlib

/-!
Verification of the penalty policy engine of tasksbot-deploy.

This file gives a shallow embedding of the penalty subsystem
(`app/penalties/policy_engine.py`, `appeals_service.py`,
`forgiveness_service.py`, `models.py`) and proves the testable
properties stated in the design document about it.

Modelling conventions:
* Time is measured in whole minutes since an arbitrary epoch
  (`datetime` values become `Nat`); one UTC day is 1440 minutes, and
  `datetime.utcnow().replace(hour=0, ...)` becomes `startOfDay`.
  Calendar months are not linear in minutes, so the start-of-month
  instant computed by `start.replace(day=1)` is passed as an explicit
  `mstart` argument.
* JSON dictionaries (`rules`, `caps`, `grace`, `scope`, payloads)
  become structures of `Option` fields (absent key = `none`) and
  association lists; Python `dict.get` becomes an association-list
  lookup.  Python truthiness tests (`if not count_per_day`,
  `if not event.dedupe_key`, `if not amount`) are modelled explicitly
  (zero / empty string / `none` are falsy).
* Monetary amounts (`float` / `Numeric`) become exact rationals;
  Python `int(x)` becomes truncation toward zero.
* The SQLAlchemy session becomes explicit state: the `penalty_events`
  table, the `penalty_ledger` table, and the engine's in-memory
  `_cooldowns` dict.  `session.add` + autoflush is modelled by
  appending to the ledger list immediately (the cap query in
  `_apply_caps` sees rows added earlier in the same `apply_event`
  call, as SQLAlchemy's autoflush makes it).
-/

namespace TasksBot

/-- Ledger row status, `ledger_status` enum of `models.py`. -/
inductive LedgerStatus where
  | applied
  | waived
  | reversed
deriving DecidableEq

/-- Appeal status, `appeal_status` enum of `models.py`. -/
inductive AppealStatus where
  | «open»
  | approved
  | rejected
deriving DecidableEq

/-- Model of `PenaltyEvent` from `models.py`: an immutable behavioural fact.
`payload` is the free-form JSON metric map, modelled as an association
list from metric name to (integer) value. -/
structure PenaltyEvent where
  id : Nat
  occurred_at : Nat := 0
  user_id : Nat
  direction_id : Option Nat := none
  point_id : Option Nat := none
  source : String
  payload : List (String × Int) := []
  dedupe_key : Option String := none
deriving DecidableEq

/-- One entry of a policy's `rules[]` JSON list
(`policy_engine.py` reads exactly these keys with `rule.get`).
The nested dictionaries `grace`, `per_occurrence_cap` and
`forgiveness` are flattened into `Option` fields; an absent key
(or an absent nested dictionary) is `none`. -/
structure Rule where
  «when» : Option String := none
  thresholds : List (String × Int) := []
  points : Option Int := none
  amount : Option Rat := none
  grace_count_per_day : Option Int := none
  cooldown_min : Option Int := none
  per_occurrence_cap_points : Option Int := none
  per_occurrence_cap_amount : Option Rat := none
  forgiveness_streak_days_to_waive : Option Int := none
  forgiveness_waive_percent : Option Int := none
deriving DecidableEq

/-- Model of `PenaltyPolicy` from `models.py`, with its JSON `scope` and `caps`
dictionaries flattened (`scope.direction_ids`, `scope.point_ids`,
`caps.daily.points`, `caps.month.amount`). -/
structure PenaltyPolicy where
  id : Nat
  is_active : Bool := true
  scope_direction_ids : Option (List Nat) := none
  scope_point_ids : Option (List Nat) := none
  rules : List Rule := []
  caps_daily_points : Option Int := none
  caps_month_amount : Option Rat := none
deriving DecidableEq

/-- Model of `PenaltyLedger` from `models.py`; column defaults of the model are
the field defaults (`points = 0`, `status = applied`). -/
structure PenaltyLedger where
  id : Nat := 0
  event_id : Nat := 0
  user_id : Nat
  policy_id : Nat := 0
  applied_at : Nat := 0
  points : Int := 0
  amount : Option Rat := none
  reasons : List String := []
  status : LedgerStatus := .applied
  waiver_reason : Option String := none
  reversed_by_user_id : Option Nat := none
deriving DecidableEq

/-- Model of `Appeal` from `models.py`. -/
structure Appeal where
  id : Nat := 0
  ledger_id : Nat
  user_id : Nat
  created_at : Nat := 0
  status : AppealStatus := .«open»
  moderator_user_id : Option Nat := none
  decision_comment : Option String := none
  decided_at : Option Nat := none
deriving DecidableEq

/-- Start of the current UTC day:
`datetime.utcnow().replace(hour=0, minute=0, second=0, microsecond=0)`
at minute granularity (1440 minutes per day). -/
def startOfDay (t : Nat) : Nat := t / 1440 * 1440

/-- Association-list lookup, modelling Python `dict.get(key)`. -/
def lookupStr (ps : List (String × Int)) (k : String) : Option Int :=
  (ps.find? fun p => decide (p.1 = k)).map (·.2)

/-- Dict read `self._cooldowns.get(key)`. -/
def getCooldown (m : List ((Nat × String) × Nat)) (k : Nat × String) : Option Nat :=
  (m.find? fun p => decide (p.1 = k)).map (·.2)

/-- Dict write `self._cooldowns[key] = value`. -/
def setCooldown (m : List ((Nat × String) × Nat)) (k : Nat × String) (v : Nat) :
    List ((Nat × String) × Nat) :=
  match m with
  | [] => [(k, v)]
  | (k', v') :: rest =>
      if k' = k then (k, v) :: rest else (k', v') :: setCooldown rest k v

/-- Split a key at its first underscore, the Python
`key.split("_", 1)` (together with the `"_" in key` test:
`none` means the key has no underscore). -/
def breakUnderscore : List Char → Option (List Char × List Char)
  | [] => none
  | c :: cs =>
      if c = '_' then some ([], cs)
      else
        match breakUnderscore cs with
        | none => none
        | some (a, b) => some (c :: a, b)

/-- The metric name read from a threshold key:
`key.split("_", 1)[1] if "_" in key else key`. -/
def metricName (k : String) : String :=
  match breakUnderscore k.data with
  | some x => String.mk x.2
  | none => k

/-- The test `key.startswith("gt_")`. -/
def startsGT (k : String) : Bool :=
  match k.data with
  | 'g' :: 't' :: '_' :: _ => true
  | _ => false

/-- The test `key.startswith("lt_")`. -/
def startsLT (k : String) : Bool :=
  match k.data with
  | 'l' :: 't' :: '_' :: _ => true
  | _ => false

/-- Model of `PolicyEngine._threshold_pass`: every thresholds entry must pass;
a missing payload metric fails the entry; `gt_` keys demand strict
greater-than, `lt_` keys strict less-than. -/
def threshold_pass (thresholds : List (String × Int)) (payload : List (String × Int)) : Bool :=
  thresholds.all fun kv =>
    match lookupStr payload (metricName kv.1) with
    | none => false
    | some metric =>
        if startsGT kv.1 ∧ ¬ (kv.2 < metric) then false
        else if startsLT kv.1 ∧ ¬ (metric < kv.2) then false
        else true

/-- The count taken by `PolicyEngine._grace_applies`: today's persisted
events with the same `user_id` and `source`
(`occurred_at >= start-of-UTC-day`). -/
def countToday (events : List PenaltyEvent) (now : Nat) (e : PenaltyEvent) : Nat :=
  (events.filter fun ev =>
    decide (ev.user_id = e.user_id ∧ ev.source = e.source ∧ startOfDay now ≤ ev.occurred_at)).length

/-- Model of `PolicyEngine._grace_applies`.  `if not count_per_day: return False`
treats both an absent key and a zero value as "no grace". -/
def grace_applies (events : List PenaltyEvent) (now : Nat) (e : PenaltyEvent) (rule : Rule) :
    Bool :=
  match rule.grace_count_per_day with
  | none => false
  | some count_per_day =>
      if count_per_day = 0 then false
      else decide ((countToday events now e : Int) ≤ count_per_day)

/-- Model of `PolicyEngine._cooldown_applies`.  `if not cd` treats an absent key
and a zero value as "no cooldown"; a datetime in the map is always
truthy. -/
def cooldown_applies (cooldowns : List ((Nat × String) × Nat)) (now : Nat)
    (e : PenaltyEvent) (rule : Rule) : Bool :=
  match rule.cooldown_min with
  | none => false
  | some cd =>
      if cd = 0 then false
      else
        match getCooldown cooldowns (e.user_id, e.source) with
        | none => false
        | some last => decide (((now : Int) - last) < cd)

/-- Model of `PolicyEngine._dedupe_applies`: fires only for a truthy
`dedupe_key` (non-null and non-empty) shared with a *different*
persisted event. -/
def dedupe_applies (events : List PenaltyEvent) (e : PenaltyEvent) : Bool :=
  match e.dedupe_key with
  | none => false
  | some k =>
      if k = "" then false
      else events.any fun ev => decide (ev.dedupe_key = some k ∧ ev.id ≠ e.id)

/-- Today's point total of `PolicyEngine._apply_caps`:
`coalesce(sum(points), 0)` over the ledger rows of `(user_id,
policy_id)` with `applied_at >= start-of-UTC-day`. -/
def dailyPoints (ledgers : List PenaltyLedger) (uid pid : Nat) (dstart : Nat) : Int :=
  ((ledgers.filter fun l =>
      decide (l.user_id = uid ∧ l.policy_id = pid ∧ dstart ≤ l.applied_at)).map
    (·.points)).sum

/-- This month's amount total of `PolicyEngine._apply_caps`:
`coalesce(sum(amount), 0)` (SQL `SUM` skips `NULL` amounts) over the
ledger rows of `(user_id, policy_id)` with `applied_at >= mstart`. -/
def monthAmountSum (ledgers : List PenaltyLedger) (uid pid : Nat) (mstart : Nat) : Rat :=
  ((ledgers.filter fun l =>
      decide (l.user_id = uid ∧ l.policy_id = pid ∧ mstart ≤ l.applied_at)).map
    (fun l => l.amount.getD 0)).sum

/-- The monthly-amount half of `PolicyEngine._apply_caps`: runs only
when an amount candidate is present; drops the amount when the monthly
sum already reaches the cap, else clamps it to the remaining budget. -/
def monthClamp (ledgers : List PenaltyLedger) (mstart : Nat) (user_id : Nat)
    (policy : PenaltyPolicy) (amount : Option Rat) : Option Rat :=
  match amount with
  | none => none
  | some a =>
      match policy.caps_month_amount with
      | none => some a
      | some max_amt =>
          let month_amt := monthAmountSum ledgers user_id policy.id mstart
          if max_amt ≤ month_amt then none
          else some (min a (max_amt - month_amt))

/-- Model of `PolicyEngine._apply_caps`: daily-point cap first (full rejection
at `(0, None)` when today's sum already reaches the cap, otherwise a
clamp to the remaining budget), then the independent monthly amount
clamp. -/
def apply_caps (ledgers : List PenaltyLedger) (now mstart : Nat) (user_id : Nat)
    (policy : PenaltyPolicy) (points : Int) (amount : Option Rat) : Int × Option Rat :=
  let start := startOfDay now
  let total_points := dailyPoints ledgers user_id policy.id start
  match policy.caps_daily_points with
  | some max_daily =>
      if max_daily ≤ total_points then (0, none)
      else (min points (max_daily - total_points),
            monthClamp ledgers mstart user_id policy amount)
  | none => (points, monthClamp ledgers mstart user_id policy amount)

/-- Python `not amount` on an optional number:
`None` and `0` are falsy. -/
def amountFalsy : Option Rat → Bool
  | none => true
  | some a => decide (a = 0)

/-- The engine-visible mutable state of one `PolicyEngine` run: the
flushed `penalty_ledger` table, the in-memory `_cooldowns` dict, and
the `ledgers` list accumulated by the current `apply_event` call. -/
structure EvalState where
  ledgers : List PenaltyLedger := []
  cooldowns : List ((Nat × String) × Nat) := []
  created : List PenaltyLedger := []
deriving DecidableEq

/-- The candidate points of a rule match:
`points = rule.get("points", 0)` clamped by the per-occurrence cap
when that cap is set. -/
def candPoints (rule : Rule) : Int :=
  match rule.per_occurrence_cap_points with
  | some c => min (rule.points.getD 0) c
  | none => rule.points.getD 0

/-- The candidate amount of a rule match: `rule.get("amount")` clamped
by the per-occurrence amount cap when both are present. -/
def candAmount (rule : Rule) : Option Rat :=
  match rule.per_occurrence_cap_amount, rule.amount with
  | some c, some a => some (min a c)
  | _, _ => rule.amount

/-- The `PenaltyLedger(...)` row constructed by
`PolicyEngine.apply_event` (column defaults fill `applied_at = now`
and `status = applied`; the id models the autoincrement key). -/
def newLedgerRow (st : EvalState) (e : PenaltyEvent) (policy : PenaltyPolicy) (now : Nat)
    (pa : Int × Option Rat) : PenaltyLedger :=
  { id := st.ledgers.length
    event_id := e.id
    user_id := e.user_id
    policy_id := policy.id
    applied_at := now
    points := pa.1
    amount := pa.2
    reasons := [e.source]
    status := .applied }

/-- The body of the inner rule loop of `PolicyEngine.apply_event`:
source match, thresholds, grace, cooldown, dedupe, per-occurrence
caps, aggregate caps, then the ledger insert plus the cooldown-map
write.  A skipped rule leaves the state untouched. -/
def evalRule (events : List PenaltyEvent) (now mstart : Nat) (e : PenaltyEvent)
    (policy : PenaltyPolicy) (st : EvalState) (rule : Rule) : EvalState :=
  if rule.«when» ≠ some e.source then st
  else if ¬ threshold_pass rule.thresholds e.payload then st
  else if grace_applies events now e rule then st
  else if cooldown_applies st.cooldowns now e rule then st
  else if dedupe_applies events e then st
  else
    let pa := apply_caps st.ledgers now mstart e.user_id policy (candPoints rule) (candAmount rule)
    if pa.1 = 0 ∧ amountFalsy pa.2 then st
    else
      { ledgers := st.ledgers ++ [newLedgerRow st e policy now pa]
        cooldowns := setCooldown st.cooldowns (e.user_id, e.source) now
        created := st.created ++ [newLedgerRow st e policy now pa] }

/-- The per-policy rule loop of `PolicyEngine.apply_event`
(`for rule in policy.rules or []`). -/
def evalPolicy (events : List PenaltyEvent) (now mstart : Nat) (e : PenaltyEvent)
    (policy : PenaltyPolicy) (st : EvalState) : EvalState :=
  policy.rules.foldl (evalRule events now mstart e policy) st

/-- One scope test of `PolicyEngine.policies_for`:
`if ids and value not in ids: continue` — a policy is kept when the
scope list is absent or empty (falsy), or contains the event's id
(a `None` id is never contained). -/
def scopeKeeps (ids : Option (List Nat)) (v : Option Nat) : Bool :=
  match ids with
  | none => true
  | some l =>
      if l = [] then true
      else
        match v with
        | some d => l.contains d
        | none => false

/-- Model of `PolicyEngine.policies_for`: active policies whose (truthy) scope
lists, when present, contain the event's direction / point id. -/
def policies_for (policies : List PenaltyPolicy) (e : PenaltyEvent) : List PenaltyPolicy :=
  (policies.filter fun p => p.is_active).filter fun p =>
    scopeKeeps p.scope_direction_ids e.direction_id &&
      scopeKeeps p.scope_point_ids e.point_id

/-- Model of `PolicyEngine.apply_event`: evaluate every matching policy's rules
against the event, returning the updated state together with the list
of ledger rows created for this event (the local `ledgers` list of the
Python code, reset at call entry). -/
def apply_event (policies : List PenaltyPolicy) (events : List PenaltyEvent)
    (now mstart : Nat) (st : EvalState) (e : PenaltyEvent) :
    EvalState × List PenaltyLedger :=
  let st1 :=
    (policies_for policies e).foldl
      (fun acc p => evalPolicy events now mstart e p acc)
      { st with created := [] }
  (st1, st1.created)

/-! ### Appeals workflow (`appeals_service.py`) -/

/-- The slice of database state the appeals workflow touches. -/
structure AppealsDb where
  ledgers : List PenaltyLedger := []
  appeals : List Appeal := []
deriving DecidableEq

/-- Primary-key lookup `session.get(Appeal, appeal_id)`. -/
def getAppeal (db : AppealsDb) (aid : Nat) : Option Appeal :=
  db.appeals.find? fun a => decide (a.id = aid)

/-- Primary-key lookup `session.get(PenaltyLedger, ledger_id)`. -/
def getLedgerRow (db : AppealsDb) (lid : Nat) : Option PenaltyLedger :=
  db.ledgers.find? fun l => decide (l.id = lid)

/-- Committing the insert of an `Appeal` row.  The commit enforces the
`ForeignKey('penalty_ledger.id')` declared on `Appeal.ledger_id` in
`models.py` (created as a `REFERENCES` constraint by migration
`0001_penalty_tables.py`, whose `JSONB` columns target PostgreSQL, a
foreign-key-enforcing backend): inserting an appeal whose `ledger_id`
references no ledger row aborts the transaction with an integrity
error and persists nothing. -/
def commitInsertAppeal (db : AppealsDb) (a : Appeal) : Except String (AppealsDb × Appeal) :=
  if db.ledgers.any fun l => decide (l.id = a.ledger_id) then
    .ok ({ db with appeals := db.appeals ++ [a] }, a)
  else
    .error "IntegrityError"

/-- Model of `create_appeal`: build an `Appeal` with the column defaults
(`status = open`), add it and commit.  The row id models the
autoincrement primary key. -/
def create_appeal (db : AppealsDb) (now : Nat) (ledger_id user_id : Nat) :
    Except String (AppealsDb × Appeal) :=
  let appeal : Appeal :=
    { id := db.appeals.length + 1
      ledger_id := ledger_id
      user_id := user_id
      created_at := now }
  commitInsertAppeal db appeal

/-- Model of `resolve_appeal`: raises `ValueError("appeal not found")` for an
unknown id; otherwise records the decision on the appeal and, on
approval, sets the referenced ledger row's status to `waived` (when
that row exists). -/
def resolve_appeal (db : AppealsDb) (now : Nat) (appeal_id moderator_id : Nat)
    (approve : Bool) (comment : String) : Except String (AppealsDb × Appeal) :=
  match getAppeal db appeal_id with
  | none => .error "appeal not found"
  | some appeal =>
      let appeal' : Appeal :=
        { appeal with
            status := if approve then .approved else .rejected
            moderator_user_id := some moderator_id
            decision_comment := some comment
            decided_at := some now }
      let appeals' := db.appeals.map fun a => if a.id = appeal_id then appeal' else a
      let ledgers' :=
        if approve then
          match getLedgerRow db appeal.ledger_id with
          | some _ =>
              db.ledgers.map fun l =>
                if l.id = appeal.ledger_id then { l with status := .waived } else l
          | none => db.ledgers
        else db.ledgers
      .ok ({ ledgers := ledgers', appeals := appeals' }, appeal')

/-! ### Forgiveness and decay (`forgiveness_service.py`) -/

/-- Python `int(x)` on a real value: truncation toward zero
(floor for nonnegative values, ceiling for negative ones). -/
def pyTrunc (q : Rat) : Int := if q < 0 then ⌈q⌉ else ⌊q⌋

/-- The user's most recent ledger row,
`order_by(applied_at.desc()).first()` (ties resolved
deterministically to the earliest-inserted row). -/
def latestLedger (ledgers : List PenaltyLedger) (uid : Nat) : Option PenaltyLedger :=
  (ledgers.filter fun l => decide (l.user_id = uid)).foldl
    (fun acc l =>
      match acc with
      | none => some l
      | some m => if m.applied_at < l.applied_at then some l else acc)
    none

/-- The Python `(datetime.utcnow() - last.applied_at).days`: whole days, floored
(Python `timedelta.days` floors toward minus infinity). -/
def daysBetween (now t : Nat) : Int := Int.fdiv ((now : Int) - t) 1440

/-- Model of `_current_streak`: days since the user's most recent ledger row,
`0` when the user has none. -/
def current_streak (ledgers : List PenaltyLedger) (now : Nat) (uid : Nat) : Int :=
  match latestLedger ledgers uid with
  | none => 0
  | some l => daysBetween now l.applied_at

/-- Model of `apply_forgiveness`: when the user's streak reaches
`forgiveness.streak_days_to_waive` (absent keys default to `0`),
keep `(100 - waive_percent)` percent of the row's points (truncated
to an integer) and of its truthy amount. -/
def apply_forgiveness (ledgers : List PenaltyLedger) (now : Nat) (user_id : Nat)
    (ledger : PenaltyLedger) (rule : Rule) : PenaltyLedger :=
  let streak_days := current_streak ledgers now user_id
  if rule.forgiveness_streak_days_to_waive.getD 0 ≤ streak_days then
    let pct := rule.forgiveness_waive_percent.getD 0
    let led := { ledger with points := pyTrunc ((ledger.points : Rat) * (100 - pct) / 100) }
    match led.amount with
    | some a => if a = 0 then led else { led with amount := some (a * (100 - (pct : Rat)) / 100) }
    | none => led
  else ledger

/-- Model of `decay_weekly`: for a positive `points` argument, subtract it from
the points of every `applied`-status ledger row of the user (no floor
at zero); a non-positive argument is a no-op. -/
def decay_weekly (ledgers : List PenaltyLedger) (user_id : Nat) (points : Int) :
    List PenaltyLedger :=
  if points ≤ 0 then ledgers
  else
    ledgers.map fun l =>
      if l.user_id = user_id ∧ l.status = .applied then
        { l with points := l.points - points }
      else l

/-! ### The reference scenario of `tests/test_policy_engine.py` -/

/-- The rule seeded by `seed_policy`:
`{when: 'late', thresholds: {gt_minutes: 5}, points: 5,
grace: {count_per_day: 1}?, per_occurrence_cap: {points: 10}}`. -/
def lateRule (withGrace : Bool) : Rule :=
  { «when» := some "late"
    thresholds := [("gt_minutes", 5)]
    points := some 5
    grace_count_per_day := if withGrace then some 1 else none
    per_occurrence_cap_points := some 10 }

/-- The policy seeded by `seed_policy`, with `caps = {daily: {points: 10}}`. -/
def testPolicy (withGrace : Bool) : PenaltyPolicy :=
  { id := 1
    rules := [lateRule withGrace]
    caps_daily_points := some 10 }

/-- One `late` event of the reference tests:
`PenaltyEvent(user_id=1, source='late', payload={'minutes': 10})`,
occurring `i` minutes into day 0. -/
def lateEvent (i : Nat) (key : Option String) : PenaltyEvent :=
  { id := i
    occurred_at := 100 + i
    user_id := 1
    source := "late"
    payload := [("minutes", 10)]
    dedupe_key := key }

/-- A rule whose forgiveness config waives 50 percent as soon as the
streak reaches the default threshold `0`. -/
def waiveHalfRule : Rule := { forgiveness_waive_percent := some 50 }

/-- The two same-key events of `test_dedupe`. -/
def dupEvent (i : Nat) : PenaltyEvent := lateEvent i (some "a")

/-- A rule with `when` and `amount` but no `points` key, and a policy
carrying it (mirroring a malformed policy document). -/
def amountOnlyRule : Rule := { «when» := some "late", amount := some 3 }

def amountOnlyPolicy : PenaltyPolicy := { id := 2, rules := [amountOnlyRule] }

/-- Frame relation for one engine step: the `created` list only grows,
a step that did not grow it did nothing at all, and cooldown keys
other than `key` read the same. -/
def CooldownFrame (key : Nat × String) (s s' : EvalState) : Prop :=
  s.created.length ≤ s'.created.length ∧
  (s'.created.length ≤ s.created.length → s' = s) ∧
  ∀ k, k ≠ key → getCooldown s'.cooldowns k = getCooldown s.cooldowns k

/-- The cap invariant: every user's daily point total under policy
`pid` stays within `P`. -/
def CapInv (pid : Nat) (P : Int) (D : Nat) (s : EvalState) : Prop :=
  ∀ uid, dailyPoints s.ledgers uid pid D ≤ P

/-- One evaluation call of a trace: the persisted events table, the
event under evaluation, the evaluation instant and its start of
month. -/
structure EvalCall where
  events : List PenaltyEvent := []
  e : PenaltyEvent
  now : Nat := 0
  mstart : Nat := 0

/-- A sequence of `apply_event` calls, threading the engine state. -/
def runTrace (policies : List PenaltyPolicy) (trace : List EvalCall) (st : EvalState) :
    EvalState :=
  trace.foldl (fun s c => (apply_event policies c.events c.now c.mstart s c.e).1) st

/-- The persist-then-evaluate trace of `test_grace_and_caps`: four
`late` events of user 1 on the same day. -/
def c2Trace : List EvalCall :=
  [{ events := [lateEvent 1 none], e := lateEvent 1 none, now := 101 },
   { events := [lateEvent 1 none, lateEvent 2 none], e := lateEvent 2 none, now := 102 },
   { events := [lateEvent 1 none, lateEvent 2 none, lateEvent 3 none],
     e := lateEvent 3 none, now := 103 },
   { events := [lateEvent 1 none, lateEvent 2 none, lateEvent 3 none, lateEvent 4 none],
     e := lateEvent 4 none, now := 104 }]

/-! ### C9: weekly decay frame effect -/

/-- C9. Weekly decay frame effect: a `decay_weekly` call with a
positive `points` argument touches exactly the user's `applied`-status
ledger rows, subtracting exactly `points` from their `points` field
(with no floor at zero) and leaving every other field, every `waived`
or `reversed` row, and every other user's row unchanged; no row is
added or removed. -/
theorem c9_decay_weekly_frame (ledgers : List PenaltyLedger) (uid : Nat) (p : Int)
    (hp : 0 < p) :
    (decay_weekly ledgers uid p).length = ledgers.length ∧
    ∀ (i : Nat) (l l' : PenaltyLedger),
      ledgers[i]? = some l → (decay_weekly ledgers uid p)[i]? = some l' →
      ((l.user_id = uid ∧ l.status = .applied →
          l'.points = l.points - p ∧
          l'.id = l.id ∧ l'.event_id = l.event_id ∧ l'.user_id = l.user_id ∧
          l'.policy_id = l.policy_id ∧ l'.applied_at = l.applied_at ∧
          l'.amount = l.amount ∧ l'.reasons = l.reasons ∧ l'.status = l.status ∧
          l'.waiver_reason = l.waiver_reason ∧
          l'.reversed_by_user_id = l.reversed_by_user_id) ∧
       (¬ (l.user_id = uid ∧ l.status = .applied) → l' = l)) := by
  have hnp : ¬ p ≤ 0 := not_le.mpr hp
  constructor
  · simp [decay_weekly, hnp]
  · intro i l l' hl hl'
    simp only [decay_weekly, if_neg hnp, List.getElem?_map, hl, Option.map_some',
      Option.some.injEq] at hl'
    constructor
    · intro hcond
      rw [← hl', if_pos hcond]
      exact ⟨rfl, rfl, rfl, rfl, rfl, rfl, rfl, rfl, rfl, rfl, rfl⟩
    · intro hcond
      rw [← hl', if_neg hcond]

/-- Witness for C9 at a concrete input: three rows, decay of 5 points
for user 1; the length is preserved and the single matching row drops
from 1 to -4 points (no floor at zero). -/
theorem c9_decay_weekly_witness :
    (decay_weekly
        [{ user_id := 1, points := 1 }, { user_id := 1, points := 7, status := .waived },
         { user_id := 2, points := 3 }] 1 5).length =
      ([{ user_id := 1, points := 1 }, { user_id := 1, points := 7, status := .waived },
        { user_id := 2, points := 3 }] : List PenaltyLedger).length ∧
    (decay_weekly
        [{ user_id := 1, points := 1 }, { user_id := 1, points := 7, status := .waived },
         { user_id := 2, points := 3 }] 1 5).map (·.points) = [-4, 7, 3] := by
  refine ⟨(c9_decay_weekly_frame _ 1 5 (by decide)).1, by decide⟩

/-! ### C5: resolve-appeal contract -/

/-- C5. `resolve_appeal` contract: an unknown appeal id fails with the
not-found error (and, the model being functional, no state change is
produced); resolving an existing appeal records status, moderator,
comment and decision time on the appeal, and on approval sets the
status of the ledger rows with the referenced id to `waived` without
deleting any row, while on rejection the ledger table is untouched. -/
theorem c5_resolve_appeal_contract (db : AppealsDb) (now appeal_id moderator_id : Nat)
    (comment : String) :
    (getAppeal db appeal_id = none →
      ∀ approve,
        resolve_appeal db now appeal_id moderator_id approve comment =
          .error "appeal not found") ∧
    (∀ ap, getAppeal db appeal_id = some ap →
      ∀ approve, ∃ db' ap',
        resolve_appeal db now appeal_id moderator_id approve comment = .ok (db', ap') ∧
        ap'.status = (if approve then .approved else .rejected) ∧
        ap'.moderator_user_id = some moderator_id ∧
        ap'.decision_comment = some comment ∧
        ap'.decided_at = some now ∧
        db'.ledgers.length = db.ledgers.length ∧
        (approve = true →
          ∀ i : Nat, db'.ledgers[i]? =
            (db.ledgers[i]?).map fun l : PenaltyLedger =>
              if l.id = ap.ledger_id then { l with status := .waived } else l) ∧
        (approve = false → db'.ledgers = db.ledgers)) := by
  constructor
  · intro hnone approve
    simp [resolve_appeal, hnone]
  · intro ap hap approve
    cases approve with
    | false =>
        simp only [resolve_appeal, hap, Bool.false_eq_true, if_false]
        refine ⟨_, _, rfl, rfl, rfl, rfl, rfl, rfl, ?_, ?_⟩
        · intro h
          exact absurd h (by simp)
        · intro _
          rfl
    | true =>
        simp only [resolve_appeal, hap, if_true]
        refine ⟨_, _, rfl, rfl, rfl, rfl, rfl, ?_, ?_, ?_⟩
        · cases hlr : getLedgerRow db ap.ledger_id with
          | some l0 => simp
          | none => simp
        · intro _ i
          cases hlr : getLedgerRow db ap.ledger_id with
          | some l0 => simp
          | none =>
              have hall : ∀ l ∈ db.ledgers, ¬ l.id = ap.ledger_id := by
                intro l hl
                have := List.find?_eq_none.mp hlr l hl
                simpa using this
              cases hli : db.ledgers[i]? with
              | none => simp [hli]
              | some l =>
                  have hmem : l ∈ db.ledgers := List.getElem?_mem hli
                  simp [hli, if_neg (hall l hmem)]
        · intro h
          exact absurd h (by simp)

/-- Witness for C5 at a concrete input: a database with one ledger row
(id 7, status `applied`) and one open appeal (id 3) referencing it;
approving appeal 3 succeeds and the resulting ledger table has the row
waived. -/
theorem c5_resolve_appeal_witness :
    ∃ db' ap',
      resolve_appeal
          { ledgers := [{ id := 7, user_id := 1, points := 5 }],
            appeals := [{ id := 3, ledger_id := 7, user_id := 1 }] }
          500 3 42 true "ok" = .ok (db', ap') ∧
      ap'.status = .approved ∧
      ap'.moderator_user_id = some 42 ∧
      ap'.decision_comment = some "ok" ∧
      ap'.decided_at = some 500 ∧
      db'.ledgers.length = 1 := by
  obtain ⟨db', ap', h1, h2, h3, h4, h5, h6, -, -⟩ :=
    (c5_resolve_appeal_contract
        { ledgers := [{ id := 7, user_id := 1, points := 5 }],
          appeals := [{ id := 3, ledger_id := 7, user_id := 1 }] }
        500 3 42 "ok").2
      { id := 3, ledger_id := 7, user_id := 1 } (by decide) true
  exact ⟨db', ap', h1, by simpa using h2, h3, h4, h5, h6⟩

/-! ### C6: create-appeal precondition -/

/-- C6. `create_appeal` precondition: when no ledger row carries the
requested `ledger_id` the insert is rejected (the commit aborts on the
declared foreign-key constraint) and when such a row exists exactly
one new `Appeal` is inserted, in `open` status, leaving the ledger
table unchanged. -/
theorem c6_create_appeal_contract (db : AppealsDb) (now ledger_id user_id : Nat) :
    ((∀ l ∈ db.ledgers, l.id ≠ ledger_id) →
      ∃ msg, create_appeal db now ledger_id user_id = .error msg) ∧
    (∀ l, l ∈ db.ledgers → l.id = ledger_id →
      ∃ db' a,
        create_appeal db now ledger_id user_id = .ok (db', a) ∧
        db'.appeals = db.appeals ++ [a] ∧
        a.status = .«open» ∧
        a.ledger_id = ledger_id ∧
        a.user_id = user_id ∧
        db'.ledgers = db.ledgers) := by
  constructor
  · intro hnone
    refine ⟨"IntegrityError", ?_⟩
    have hany : (db.ledgers.any fun l => decide (l.id = ledger_id)) = false := by
      rw [List.any_eq_false]
      intro l hl
      simpa using hnone l hl
    simp [create_appeal, commitInsertAppeal, hany]
  · intro l hl hid
    have hany : (db.ledgers.any fun l => decide (l.id = ledger_id)) = true := by
      rw [List.any_eq_true]
      exact ⟨l, hl, by simpa using hid⟩
    simp only [create_appeal, commitInsertAppeal, hany, if_true]
    exact ⟨_, _, rfl, rfl, rfl, rfl, rfl, rfl⟩

/-- Witness for C6 at a concrete input: with a single ledger row of
id 7, creating an appeal for ledger 7 succeeds with an `open` appeal
appended. -/
theorem c6_create_appeal_witness :
    ∃ db' a,
      create_appeal { ledgers := [{ id := 7, user_id := 1, points := 5 }], appeals := [] }
          600 7 9 = .ok (db', a) ∧
      db'.appeals = [] ++ [a] ∧
      a.status = .«open» := by
  obtain ⟨db', a, h1, h2, h3, -, -, -⟩ :=
    (c6_create_appeal_contract
        { ledgers := [{ id := 7, user_id := 1, points := 5 }], appeals := [] } 600 7 9).2
      { id := 7, user_id := 1, points := 5 } (by decide) rfl
  exact ⟨db', a, h1, h2, h3⟩

/-! ### C7: forgiveness monotone reduction -/

/-- On a nonnegative rational, Python truncation agrees with the floor. -/
theorem pyTrunc_eq_floor (q : Rat) (hq : 0 ≤ q) : pyTrunc q = ⌊q⌋ := by
  rw [pyTrunc, if_neg (not_lt.mpr hq)]

/-- Truncation of a nonnegative value bounded by an integer stays
below the integer. -/
theorem pyTrunc_le_of_le (q : Rat) (p : Int) (hq : 0 ≤ q) (hle : q ≤ (p : Rat)) :
    pyTrunc q ≤ p := by
  rw [pyTrunc_eq_floor q hq]
  calc ⌊q⌋ ≤ ⌊(p : Rat)⌋ := Int.floor_le_floor hle
    _ = p := Int.floor_intCast p

/-- Scaling a nonnegative value by `(100 - pct) / 100` for a percent
between 0 and 100 does not increase it. -/
theorem scale_le_self (a : Rat) (pct : Int) (ha : 0 ≤ a) (h0 : 0 ≤ pct) (h100 : pct ≤ 100) :
    a * (100 - (pct : Rat)) / 100 ≤ a ∧ 0 ≤ a * (100 - (pct : Rat)) / 100 := by
  have hpc0 : (0 : Rat) ≤ (pct : Rat) := by exact_mod_cast h0
  have hpc100 : (pct : Rat) ≤ 100 := by exact_mod_cast h100
  constructor
  · rw [div_le_iff₀ (by norm_num : (0 : Rat) < 100)]
    nlinarith
  · apply div_nonneg _ (by norm_num : (0 : Rat) ≤ 100)
    nlinarith

/-- C7 (amended).  For a rule whose `forgiveness.waive_percent` lies
between 0 and 100 and a ledger row with nonnegative points and
amount, `apply_forgiveness` never increases the row's points or
amount: when the user's streak reaches `streak_days_to_waive` it
keeps `(100 - waive_percent)` percent of the points, truncated to an
integer, and scales a nonzero amount proportionally; otherwise it
leaves the row unchanged.  (The nonnegativity hypotheses are forced
by the counterexample below: on a negative-points row — reachable via
`decay_weekly`, which has no floor at zero — Python `int()` truncates
toward zero and *increases* the points.) -/
theorem c7_forgiveness_monotone (ledgers : List PenaltyLedger) (now : Nat) (user_id : Nat)
    (ledger : PenaltyLedger) (rule : Rule) (pct : Int)
    (hpct : rule.forgiveness_waive_percent = some pct)
    (h0 : 0 ≤ pct) (h100 : pct ≤ 100)
    (hpts : 0 ≤ ledger.points)
    (hamt : ∀ a, ledger.amount = some a → 0 ≤ a) :
    (apply_forgiveness ledgers now user_id ledger rule).points ≤ ledger.points ∧
    (∀ a, ledger.amount = some a →
      ∃ a', (apply_forgiveness ledgers now user_id ledger rule).amount = some a' ∧ a' ≤ a) ∧
    (rule.forgiveness_streak_days_to_waive.getD 0 ≤ current_streak ledgers now user_id →
      (apply_forgiveness ledgers now user_id ledger rule).points =
        pyTrunc ((ledger.points : Rat) * (100 - (pct : Rat)) / 100) ∧
      (∀ a, ledger.amount = some a → a ≠ 0 →
        (apply_forgiveness ledgers now user_id ledger rule).amount =
          some (a * (100 - (pct : Rat)) / 100))) ∧
    (¬ rule.forgiveness_streak_days_to_waive.getD 0 ≤ current_streak ledgers now user_id →
      apply_forgiveness ledgers now user_id ledger rule = ledger) := by
  by_cases hs : rule.forgiveness_streak_days_to_waive.getD 0 ≤ current_streak ledgers now user_id
  · have hptsQ : (0 : Rat) ≤ (ledger.points : Rat) := by exact_mod_cast hpts
    have hscale := scale_le_self (ledger.points : Rat) pct hptsQ h0 h100
    have hple : pyTrunc ((ledger.points : Rat) * (100 - (pct : Rat)) / 100) ≤ ledger.points := by
      apply pyTrunc_le_of_le _ _ hscale.2
      calc (ledger.points : Rat) * (100 - (pct : Rat)) / 100 ≤ (ledger.points : Rat) :=
            hscale.1
        _ = ((ledger.points : Int) : Rat) := rfl
    cases hamtc : ledger.amount with
    | none =>
        refine ⟨?_, ?_, ?_, fun h => absurd hs h⟩
        · simpa [apply_forgiveness, if_pos hs, hpct, hamtc] using hple
        · intro a ha
          simp at ha
        · intro _
          refine ⟨by simp [apply_forgiveness, if_pos hs, hpct, hamtc], ?_⟩
          intro a ha
          simp at ha
    | some a0 =>
        have ha0 : 0 ≤ a0 := hamt a0 hamtc
        by_cases hz : a0 = 0
        · refine ⟨?_, ?_, ?_, fun h => absurd hs h⟩
          · simpa [apply_forgiveness, if_pos hs, hpct, hamtc, hz] using hple
          · intro a ha
            cases ha
            exact ⟨a0, by simp [apply_forgiveness, if_pos hs, hpct, hamtc, hz], le_refl a0⟩
          · intro _
            refine ⟨by simp [apply_forgiveness, if_pos hs, hpct, hamtc, hz], ?_⟩
            intro a ha hne
            cases ha
            exact absurd hz hne
        · have hascale := scale_le_self a0 pct ha0 h0 h100
          refine ⟨?_, ?_, ?_, fun h => absurd hs h⟩
          · simpa [apply_forgiveness, if_pos hs, hpct, hamtc, hz] using hple
          · intro a ha
            cases ha
            exact ⟨a0 * (100 - (pct : Rat)) / 100,
              by simp [apply_forgiveness, if_pos hs, hpct, hamtc, hz], hascale.1⟩
          · intro _
            refine ⟨by simp [apply_forgiveness, if_pos hs, hpct, hamtc, hz], ?_⟩
            intro a ha hne
            cases ha
            simp [apply_forgiveness, if_pos hs, hpct, hamtc, hz]
  · refine ⟨?_, ?_, fun h => absurd h hs, ?_⟩
    · simp [apply_forgiveness, if_neg hs]
    · intro a ha
      exact ⟨a, by simp [apply_forgiveness, if_neg hs, ha], le_refl a⟩
    · intro _
      simp [apply_forgiveness, if_neg hs]



/-- Counterexample to C7 as stated: on a ledger row with `points = -5`
(negative points are reachable, because `decay_weekly` subtracts with
no floor at zero) and `waive_percent = 50`, Python's `int()` truncates
`-2.5` toward zero, so forgiveness *raises* the points from `-5` to
`-2` — it is not monotone on every ledger row. -/
theorem c7_negative_points_increase :
    ¬ ((apply_forgiveness [] 0 1 { user_id := 1, points := -5 } waiveHalfRule).points ≤
        ({ user_id := 1, points := -5 } : PenaltyLedger).points) := by
  have h1 : (apply_forgiveness [] 0 1 { user_id := 1, points := -5 } waiveHalfRule).points =
      pyTrunc ((((-5 : Int)) : Rat) * (100 - (((50 : Int)) : Rat)) / 100) := rfl
  have h2 : ((((-5 : Int)) : Rat) * (100 - (((50 : Int)) : Rat)) / 100) =
      -(((5 : Int) : Rat) / ((2 : Nat) : Rat)) := by
    push_cast
    norm_num
  have h3 : pyTrunc ((((-5 : Int)) : Rat) * (100 - (((50 : Int)) : Rat)) / 100) = -2 := by
    have hneg : ((((-5 : Int)) : Rat) * (100 - (((50 : Int)) : Rat)) / 100) < 0 := by
      rw [h2]
      push_cast
      norm_num
    rw [pyTrunc, if_pos hneg, h2, Int.ceil_neg, Rat.floor_intCast_div_natCast]
    decide
  rw [h1, h3]
  decide

/-- Witness for C7 at a concrete input: a row of 5 points and amount
8, 50-percent forgiveness at streak threshold 0; points drop to
`int(2.5) = 2` and the amount to 4. -/
theorem c7_forgiveness_witness :
    (apply_forgiveness [] 0 1 { user_id := 1, points := 5, amount := some 8 }
        waiveHalfRule).points ≤ 5 ∧
    (apply_forgiveness [] 0 1 { user_id := 1, points := 5, amount := some 8 }
        waiveHalfRule).points =
      pyTrunc ((5 : Rat) * (100 - (50 : Rat)) / 100) := by
  have h := c7_forgiveness_monotone [] 0 1
    { user_id := 1, points := 5, amount := some 8 } waiveHalfRule 50 rfl
    (by decide) (by decide) (by decide) (by intro a ha; cases ha; decide)
  exact ⟨h.1, (h.2.2.1 (by decide)).1⟩

/-! ### C4: threshold check semantics -/

/-- Splitting a `gt_`-prefixed key at the first underscore yields the
metric name (the remainder after `gt_`). -/
theorem metricName_gt (m : String) : metricName ("gt_" ++ m) = m := by
  obtain ⟨d⟩ := m
  rfl

/-- Splitting an `lt_`-prefixed key at the first underscore yields the
metric name. -/
theorem metricName_lt (m : String) : metricName ("lt_" ++ m) = m := by
  obtain ⟨d⟩ := m
  rfl

theorem startsGT_gt (m : String) : startsGT ("gt_" ++ m) = true := by
  obtain ⟨d⟩ := m
  rfl

theorem startsLT_gt (m : String) : startsLT ("gt_" ++ m) = false := by
  obtain ⟨d⟩ := m
  rfl

theorem startsGT_lt (m : String) : startsGT ("lt_" ++ m) = false := by
  obtain ⟨d⟩ := m
  rfl

theorem startsLT_lt (m : String) : startsLT ("lt_" ++ m) = true := by
  obtain ⟨d⟩ := m
  rfl

/-- C4. Threshold check semantics: for a rule whose thresholds are all
keyed `gt_<metric>` or `lt_<metric>`, the check passes exactly when
every listed entry passes (logical AND), where a `gt_` entry demands
that `payload[metric]` exists and is strictly greater than the bound,
and an `lt_` entry demands that it exists and is strictly smaller
(a missing metric fails the entry, hence the rule — fail closed). -/
theorem c4_threshold_semantics (ths payload : List (String × Int))
    (hk : ∀ kv ∈ ths, (∃ m : String, kv.1 = "gt_" ++ m) ∨ (∃ m : String, kv.1 = "lt_" ++ m)) :
    threshold_pass ths payload = true ↔
      ∀ kv ∈ ths, ∀ m : String,
        (kv.1 = "gt_" ++ m → ∃ x, lookupStr payload m = some x ∧ kv.2 < x) ∧
        (kv.1 = "lt_" ++ m → ∃ x, lookupStr payload m = some x ∧ x < kv.2) := by
  rw [threshold_pass, List.all_eq_true]
  constructor
  · intro h kv hkv m
    have hf := h kv hkv
    constructor
    · intro he
      rw [he] at hf
      simp only [metricName_gt, startsGT_gt, startsLT_gt] at hf
      cases hx : lookupStr payload m with
      | none => simp [hx] at hf
      | some x =>
          simp only [hx] at hf
          by_cases hlt : kv.2 < x
          · exact ⟨x, rfl, hlt⟩
          · simp [hlt] at hf
    · intro he
      rw [he] at hf
      simp only [metricName_lt, startsGT_lt, startsLT_lt] at hf
      cases hx : lookupStr payload m with
      | none => simp [hx] at hf
      | some x =>
          simp only [hx] at hf
          by_cases hlt : x < kv.2
          · exact ⟨x, rfl, hlt⟩
          · simp [hlt] at hf
  · intro h kv hkv
    rcases hk kv hkv with ⟨m, he⟩ | ⟨m, he⟩
    · obtain ⟨x, hx, hlt⟩ := (h kv hkv m).1 he
      rw [he]
      simp [metricName_gt, startsGT_gt, startsLT_gt, hx, hlt]
    · obtain ⟨x, hx, hlt⟩ := (h kv hkv m).2 he
      rw [he]
      simp [metricName_lt, startsGT_lt, startsLT_lt, hx, hlt]

/-- Witness for C4 at a concrete input: the reference rule's
thresholds `{gt_minutes: 5}` against payload `{minutes: 10}` — the
check passes, and the theorem yields the strict bound `5 < 10` on the
looked-up metric. -/
theorem c4_threshold_semantics_witness :
    ∃ x, lookupStr [("minutes", (10 : Int))] "minutes" = some x ∧ (5 : Int) < x := by
  have hk : ∀ kv ∈ [(("gt_minutes" : String), (5 : Int))],
      (∃ m : String, kv.1 = "gt_" ++ m) ∨ (∃ m : String, kv.1 = "lt_" ++ m) := by
    intro kv hkv
    simp only [List.mem_singleton] at hkv
    subst hkv
    exact Or.inl ⟨"minutes", rfl⟩
  have h :=
    (c4_threshold_semantics [("gt_minutes", 5)] [("minutes", 10)] hk).mp (by decide)
  exact (h ("gt_minutes", 5) (by simp) "minutes").1 rfl

/-! ### Engine case analysis and fold lemmas -/

/-- A rule evaluation either skips (leaving the state untouched) or
appends exactly one ledger row, the cap-clamped candidate being not
fully rejected, and stamps the cooldown map at the event's
`(user_id, source)` key. -/
theorem evalRule_cases (events : List PenaltyEvent) (now mstart : Nat) (e : PenaltyEvent)
    (policy : PenaltyPolicy) (st : EvalState) (rule : Rule) :
    evalRule events now mstart e policy st rule = st ∨
    (¬ ((apply_caps st.ledgers now mstart e.user_id policy (candPoints rule)
          (candAmount rule)).1 = 0 ∧
        amountFalsy (apply_caps st.ledgers now mstart e.user_id policy (candPoints rule)
          (candAmount rule)).2) ∧
      evalRule events now mstart e policy st rule =
        { ledgers := st.ledgers ++
            [newLedgerRow st e policy now
              (apply_caps st.ledgers now mstart e.user_id policy (candPoints rule)
                (candAmount rule))]
          cooldowns := setCooldown st.cooldowns (e.user_id, e.source) now
          created := st.created ++
            [newLedgerRow st e policy now
              (apply_caps st.ledgers now mstart e.user_id policy (candPoints rule)
                (candAmount rule))] }) := by
  by_cases h1 : rule.«when» ≠ some e.source
  · exact Or.inl (by simp [evalRule, h1])
  · by_cases h2 : ¬ threshold_pass rule.thresholds e.payload
    · exact Or.inl (by simp [evalRule, h1, h2])
    · by_cases h3 : grace_applies events now e rule
      · exact Or.inl (by simp [evalRule, h1, h2, h3])
      · by_cases h4 : cooldown_applies st.cooldowns now e rule
        · exact Or.inl (by simp [evalRule, h1, h2, h3, h4])
        · by_cases h5 : dedupe_applies events e
          · exact Or.inl (by simp [evalRule, h1, h2, h3, h4, h5])
          · by_cases h6 :
              (apply_caps st.ledgers now mstart e.user_id policy (candPoints rule)
                  (candAmount rule)).1 = 0 ∧
                amountFalsy (apply_caps st.ledgers now mstart e.user_id policy
                  (candPoints rule) (candAmount rule)).2
            · exact Or.inl (by simp [evalRule, h1, h2, h3, h4, h5, h6])
            · exact Or.inr ⟨h6, by simp [evalRule, h1, h2, h3, h4, h5, h6]⟩

/-- Generic fold-invariant lemma. -/
theorem foldl_inv {σ α : Type _} (f : σ → α → σ) (Inv : σ → Prop) :
    ∀ (l : List α) (s : σ), (∀ s' x, x ∈ l → Inv s' → Inv (f s' x)) → Inv s →
      Inv (l.foldl f s) := by
  intro l
  induction l with
  | nil => intro s _ hs; exact hs
  | cons x xs ih =>
      intro s hstep hs
      rw [List.foldl_cons]
      exact ih (f s x)
        (fun s' y hy => hstep s' y (List.mem_cons_of_mem x hy))
        (hstep s x (List.mem_cons_self x xs) hs)

/-- Generic fold lemma for a reflexive transitive step relation. -/
theorem foldl_rel {σ α : Type _} (f : σ → α → σ) (S : σ → σ → Prop)
    (hrefl : ∀ s, S s s) (htrans : ∀ a b c, S a b → S b c → S a c) :
    ∀ (l : List α) (s : σ), (∀ s' x, x ∈ l → S s' (f s' x)) → S s (l.foldl f s) := by
  intro l
  induction l with
  | nil => intro s _; exact hrefl s
  | cons x xs ih =>
      intro s hstep
      rw [List.foldl_cons]
      exact htrans _ _ _ (hstep s x (List.mem_cons_self x xs))
        (ih (f s x) (fun s' y hy => hstep s' y (List.mem_cons_of_mem x hy)))

/-- Reading a cooldown map through one leading entry. -/
theorem getCooldown_cons (p : (Nat × String) × Nat) (rest : List ((Nat × String) × Nat))
    (k' : Nat × String) :
    getCooldown (p :: rest) k' = if p.1 = k' then some p.2 else getCooldown rest k' := by
  by_cases h : p.1 = k' <;> simp [getCooldown, List.find?, h]

/-- Writing one cooldown key leaves the reads of every other key
unchanged. -/
theorem getCooldown_setCooldown_ne (m : List ((Nat × String) × Nat)) (k k' : Nat × String)
    (v : Nat) (h : k' ≠ k) : getCooldown (setCooldown m k v) k' = getCooldown m k' := by
  induction m with
  | nil =>
      show getCooldown [(k, v)] k' = getCooldown [] k'
      rw [getCooldown_cons, if_neg (fun he : (k, v).1 = k' => h he.symm)]
  | cons p rest ih =>
      obtain ⟨pk, pv⟩ := p
      by_cases hp : pk = k
      · subst hp
        have hset : setCooldown ((pk, pv) :: rest) pk v = (pk, v) :: rest := by
          simp [setCooldown]
        rw [hset, getCooldown_cons, getCooldown_cons,
          if_neg (fun he : (pk, v).1 = k' => h he.symm),
          if_neg (fun he : (pk, pv).1 = k' => h he.symm)]
      · have hset : setCooldown ((pk, pv) :: rest) k v = (pk, pv) :: setCooldown rest k v := by
          simp [setCooldown, hp]
        rw [hset, getCooldown_cons, getCooldown_cons]
        by_cases hk' : (pk, pv).1 = k'
        · rw [if_pos hk', if_pos hk']
        · rw [if_neg hk', if_neg hk']
          exact ih

/-- Restriction of `policies_for` to the policy table. -/
theorem mem_policies_for (policies : List PenaltyPolicy) (e : PenaltyEvent)
    (p : PenaltyPolicy) (hp : p ∈ policies_for policies e) : p ∈ policies := by
  have h1 := List.mem_filter.mp hp
  exact (List.mem_filter.mp h1.1).1

/-- Evaluating `dailyPoints` over an appended row. -/
theorem dailyPoints_append (ls : List PenaltyLedger) (row : PenaltyLedger)
    (uid pid dstart : Nat) :
    dailyPoints (ls ++ [row]) uid pid dstart =
      dailyPoints ls uid pid dstart +
        (if row.user_id = uid ∧ row.policy_id = pid ∧ dstart ≤ row.applied_at
          then row.points else 0) := by
  simp only [dailyPoints, List.filter_append]
  by_cases h : row.user_id = uid ∧ row.policy_id = pid ∧ dstart ≤ row.applied_at
  · simp [h]
  · simp [h]

/-- A policy whose daily budget is exhausted rejects the candidate
entirely: `_apply_caps` returns `(0, None)`. -/
theorem apply_caps_exhausted (ledgers : List PenaltyLedger) (now mstart : Nat) (uid : Nat)
    (policy : PenaltyPolicy) (pts : Int) (amt : Option Rat) (P : Int)
    (hc : policy.caps_daily_points = some P)
    (h : P ≤ dailyPoints ledgers uid policy.id (startOfDay now)) :
    apply_caps ledgers now mstart uid policy pts amt = (0, none) := by
  simp [apply_caps, hc, h]

/-- Below the daily budget, `_apply_caps` clamps the candidate points
to the remaining budget. -/
theorem apply_caps_le (ledgers : List PenaltyLedger) (now mstart : Nat) (uid : Nat)
    (policy : PenaltyPolicy) (pts : Int) (amt : Option Rat) (P : Int)
    (hc : policy.caps_daily_points = some P)
    (h : dailyPoints ledgers uid policy.id (startOfDay now) < P) :
    (apply_caps ledgers now mstart uid policy pts amt).1 ≤
      P - dailyPoints ledgers uid policy.id (startOfDay now) := by
  simp only [apply_caps, hc, if_neg (not_le.mpr h)]
  exact min_le_right _ _

/-! ### C10: cooldown state is updated only on success -/



theorem cooldownFrame_refl (key : Nat × String) (s : EvalState) : CooldownFrame key s s :=
  ⟨le_refl _, fun _ => rfl, fun _ _ => rfl⟩

theorem cooldownFrame_trans (key : Nat × String) (a b c : EvalState)
    (h1 : CooldownFrame key a b) (h2 : CooldownFrame key b c) : CooldownFrame key a c := by
  obtain ⟨l1, e1, f1⟩ := h1
  obtain ⟨l2, e2, f2⟩ := h2
  refine ⟨le_trans l1 l2, ?_, fun k hk => (f2 k hk).trans (f1 k hk)⟩
  intro hle
  have hb : c = b := e2 (le_trans hle l1)
  exact hb.trans (e1 (hb ▸ hle))

theorem evalRule_cooldownFrame (events : List PenaltyEvent) (now mstart : Nat)
    (e : PenaltyEvent) (policy : PenaltyPolicy) (st : EvalState) (rule : Rule) :
    CooldownFrame (e.user_id, e.source) st (evalRule events now mstart e policy st rule) := by
  rcases evalRule_cases events now mstart e policy st rule with h | ⟨_, h⟩
  · rw [h]
    exact cooldownFrame_refl _ _
  · rw [h]
    refine ⟨by simp, ?_, ?_⟩
    · intro hlen
      simp at hlen
    · intro k hk
      exact getCooldown_setCooldown_ne st.cooldowns (e.user_id, e.source) k now hk

theorem evalPolicy_cooldownFrame (events : List PenaltyEvent) (now mstart : Nat)
    (e : PenaltyEvent) (policy : PenaltyPolicy) (st : EvalState) :
    CooldownFrame (e.user_id, e.source) st (evalPolicy events now mstart e policy st) :=
  foldl_rel _ (CooldownFrame (e.user_id, e.source)) (cooldownFrame_refl _)
    (cooldownFrame_trans _) policy.rules st
    (fun s' r _ => evalRule_cooldownFrame events now mstart e policy s' r)

theorem apply_event_cooldownFrame (policies : List PenaltyPolicy)
    (events : List PenaltyEvent) (now mstart : Nat) (st : EvalState) (e : PenaltyEvent) :
    CooldownFrame (e.user_id, e.source) { st with created := [] }
      (apply_event policies events now mstart st e).1 :=
  foldl_rel _ (CooldownFrame (e.user_id, e.source)) (cooldownFrame_refl _)
    (cooldownFrame_trans _) (policies_for policies e) { st with created := [] }
    (fun s' p _ => evalPolicy_cooldownFrame events now mstart e p s')

/-- C10. Cooldown state is updated only on success: when an
`apply_event` call creates no ledger row (the occurrence was
suppressed by source mismatch, thresholds, grace, cooldown, dedupe or
cap exhaustion), the in-memory cooldown map is left exactly as it
was; and an evaluation never touches the cooldown entry of any key
other than the event's `(user_id, source)` pair. -/
theorem c10_cooldown_only_on_success (policies : List PenaltyPolicy)
    (events : List PenaltyEvent) (now mstart : Nat) (st : EvalState) (e : PenaltyEvent) :
    ((apply_event policies events now mstart st e).2 = [] →
      (apply_event policies events now mstart st e).1.cooldowns = st.cooldowns) ∧
    ∀ k, k ≠ (e.user_id, e.source) →
      getCooldown (apply_event policies events now mstart st e).1.cooldowns k =
        getCooldown st.cooldowns k := by
  obtain ⟨hle, heq, hframe⟩ := apply_event_cooldownFrame policies events now mstart st e
  constructor
  · intro hrows
    have hcreated : (apply_event policies events now mstart st e).1.created = [] := hrows
    have hstate := heq (by rw [hcreated])
    rw [hstate]
  · intro k hk
    exact hframe k hk

/-- Witness for C10 at a concrete input: a `late` event whose
`minutes = 1` payload fails the `gt_minutes: 5` threshold is
suppressed, and the engine's pre-existing cooldown map is untouched. -/
theorem c10_cooldown_witness :
    (apply_event [testPolicy false]
        [{ id := 1, occurred_at := 100, user_id := 1, source := "late",
           payload := [("minutes", 1)] }] 100 0
        { cooldowns := [((2, "late"), 7)] }
        { id := 1, occurred_at := 100, user_id := 1, source := "late",
          payload := [("minutes", 1)] }).1.cooldowns =
      ({ cooldowns := [((2, "late"), 7)] } : EvalState).cooldowns :=
  (c10_cooldown_only_on_success [testPolicy false]
      [{ id := 1, occurred_at := 100, user_id := 1, source := "late",
         payload := [("minutes", 1)] }] 100 0
      { cooldowns := [((2, "late"), 7)] }
      { id := 1, occurred_at := 100, user_id := 1, source := "late",
        payload := [("minutes", 1)] }).1 (by decide)

/-! ### C1: grace boundary -/

/-- When a rule's grace allowance covers today's event count, the rule
is skipped and the state is untouched. -/
theorem evalRule_grace_skip (events : List PenaltyEvent) (now mstart : Nat)
    (e : PenaltyEvent) (policy : PenaltyPolicy) (st : EvalState) (rule : Rule) (c : Int)
    (hc : rule.grace_count_per_day = some c) (hc0 : 0 < c)
    (hcount : (countToday events now e : Int) ≤ c) :
    evalRule events now mstart e policy st rule = st := by
  have hg : grace_applies events now e rule = true := by
    have hcne : ¬ c = 0 := by omega
    simp [grace_applies, hc, hcne, hcount]
  by_cases h1 : rule.«when» ≠ some e.source
  · simp [evalRule, h1]
  · by_cases h2 : ¬ threshold_pass rule.thresholds e.payload
    · simp [evalRule, h1, h2]
    · simp [evalRule, h1, h2, hg]

/-- C1 (amended).  Grace boundary: with `grace.count_per_day` set to a
positive allowance, an event whose same-day same-source count (as
queried from the events table, which includes the current event once
intake has persisted it) is at most the allowance never produces a
ledger row — the rule fires only once that count exceeds the
allowance.  With `count_per_day = 1` under the persist-then-evaluate
intake of the reference test, the 1st same-day event is forgiven
(count `1 ≤ 1`) and already the 2nd produces a ledger row (count
`2 > 1`). -/
theorem c1_grace_boundary :
    (∀ (events : List PenaltyEvent) (now mstart : Nat) (e : PenaltyEvent)
        (policy : PenaltyPolicy) (st : EvalState) (rule : Rule) (c : Int),
      rule.grace_count_per_day = some c → 0 < c →
      (countToday events now e : Int) ≤ c →
      evalRule events now mstart e policy st rule = st) ∧
    (apply_event [testPolicy true] [lateEvent 1 none] 101 0 {} (lateEvent 1 none)).2 = [] ∧
    ((apply_event [testPolicy true] [lateEvent 1 none, lateEvent 2 none] 102 0
        (apply_event [testPolicy true] [lateEvent 1 none] 101 0 {} (lateEvent 1 none)).1
        (lateEvent 2 none)).2).length = 1 := by
  refine ⟨?_, by decide, by decide⟩
  intro events now mstart e policy st rule c hc hc0 hcount
  exact evalRule_grace_skip events now mstart e policy st rule c hc hc0 hcount

/-- Counterexample to C1 as stated: the claim predicts that with
`count_per_day = 1` the 2nd same-day same-source event still produces
no ledger row.  In the reference flow (each event persisted, then
evaluated) the 2nd event's count is `2 > 1`, grace does not apply,
and a ledger row of 5 points is created. -/
theorem c1_second_event_fires :
    ¬ ((apply_event [testPolicy true] [lateEvent 1 none, lateEvent 2 none] 102 0
        (apply_event [testPolicy true] [lateEvent 1 none] 101 0 {} (lateEvent 1 none)).1
        (lateEvent 2 none)).2 = []) := by
  decide

/-- Witness for C1 at a concrete input: the 1st same-day `late` event
(count `1 ≤ 1`) is forgiven by the grace rule and leaves the state
untouched. -/
theorem c1_grace_boundary_witness :
    evalRule [lateEvent 1 none] 101 0 (lateEvent 1 none) (testPolicy true) {}
      (lateRule true) = ({} : EvalState) :=
  c1_grace_boundary.1 [lateEvent 1 none] 101 0 (lateEvent 1 none) (testPolicy true) {}
    (lateRule true) 1 rfl (by decide) (by decide)

/-! ### C3: dedupe idempotence -/

/-- A duplicated event (truthy `dedupe_key` shared with another
persisted event) makes every rule skip. -/
theorem evalRule_dedupe_skip (events : List PenaltyEvent) (now mstart : Nat)
    (e : PenaltyEvent) (policy : PenaltyPolicy) (st : EvalState) (rule : Rule)
    (h : dedupe_applies events e = true) :
    evalRule events now mstart e policy st rule = st := by
  by_cases h1 : rule.«when» ≠ some e.source
  · simp [evalRule, h1]
  · by_cases h2 : ¬ threshold_pass rule.thresholds e.payload
    · simp [evalRule, h1, h2]
    · by_cases h3 : grace_applies events now e rule
      · simp [evalRule, h1, h2, h3]
      · by_cases h4 : cooldown_applies st.cooldowns now e rule
        · simp [evalRule, h1, h2, h3, h4]
        · simp [evalRule, h1, h2, h3, h4, h]

/-- A duplicated event produces no ledger row at all and leaves the
engine state untouched. -/
theorem apply_event_dedupe_no_rows (policies : List PenaltyPolicy)
    (events : List PenaltyEvent) (now mstart : Nat) (st : EvalState) (e : PenaltyEvent)
    (h : dedupe_applies events e = true) :
    (apply_event policies events now mstart st e).2 = [] := by
  have hfold :
      (policies_for policies e).foldl
        (fun acc p => evalPolicy events now mstart e p acc) { st with created := [] } =
      { st with created := [] } := by
    apply foldl_rel _ (fun a b => b = a) (fun _ => rfl) (fun a b c h1 h2 => h2.trans h1)
    intro s' p _
    apply foldl_rel _ (fun a b => b = a) (fun _ => rfl) (fun a b c h1 h2 => h2.trans h1)
    intro s'' r _
    exact evalRule_dedupe_skip events now mstart e p s'' r h
  show ((policies_for policies e).foldl
      (fun acc p => evalPolicy events now mstart e p acc) { st with created := [] }).created = []
  rw [hfold]

/-- C3 (amended).  Dedupe idempotence: a rule never fires for an event
whose non-empty `dedupe_key` is shared by any other persisted event
(different id) — such an evaluation creates no ledger row at all.
Consequently, under persist-then-evaluate intake, the second of two
events sharing a key contributes no rows: all rows come from the
first evaluation alone (at most one row with a single matching rule,
and exactly one only when the first evaluation actually fires). -/
theorem c3_dedupe_at_most_once :
    (∀ (policies : List PenaltyPolicy) (events : List PenaltyEvent) (now mstart : Nat)
        (st : EvalState) (e : PenaltyEvent) (k : String),
      e.dedupe_key = some k → k ≠ "" →
      (∃ ev ∈ events, ev.dedupe_key = some k ∧ ev.id ≠ e.id) →
      (apply_event policies events now mstart st e).2 = []) ∧
    (∀ (policies : List PenaltyPolicy) (events₁ events₂ : List PenaltyEvent)
        (now₁ now₂ mstart₁ mstart₂ : Nat) (st : EvalState) (e₁ e₂ : PenaltyEvent)
        (k : String),
      e₁.dedupe_key = some k → e₂.dedupe_key = some k → k ≠ "" → e₁.id ≠ e₂.id →
      e₁ ∈ events₂ →
      (apply_event policies events₂ now₂ mstart₂
          (apply_event policies events₁ now₁ mstart₁ st e₁).1 e₂).2 = []) := by
  have hmain :
      ∀ (policies : List PenaltyPolicy) (events : List PenaltyEvent) (now mstart : Nat)
        (st : EvalState) (e : PenaltyEvent) (k : String),
        e.dedupe_key = some k → k ≠ "" →
        (∃ ev ∈ events, ev.dedupe_key = some k ∧ ev.id ≠ e.id) →
        (apply_event policies events now mstart st e).2 = [] := by
    intro policies events now mstart st e k hk hne ⟨ev, hmem, hevk, hevid⟩
    apply apply_event_dedupe_no_rows
    simp only [dedupe_applies, hk]
    rw [if_neg hne, List.any_eq_true]
    exact ⟨ev, hmem, by simp [hevk, fun h => hevid h]⟩
  refine ⟨hmain, ?_⟩
  intro policies events₁ events₂ now₁ now₂ mstart₁ mstart₂ st e₁ e₂ k h1 h2 hk hid hmem
  exact hmain policies events₂ now₂ mstart₂ _ e₂ k h2 hk ⟨e₁, hmem, h1, hid⟩



/-- Counterexample to C3 as stated: the claim predicts exactly one
ledger row in total for any two events sharing a `dedupe_key`.  When
both events are already persisted before either evaluation runs (a
legal intake pattern), each evaluation sees the other event as a
duplicate and is suppressed: zero rows in total, not one. -/
theorem c3_both_persisted_zero_rows :
    ¬ ((apply_event [testPolicy false] [dupEvent 1, dupEvent 2] 101 0 {} (dupEvent 1)).2.length +
        (apply_event [testPolicy false] [dupEvent 1, dupEvent 2] 102 0
          (apply_event [testPolicy false] [dupEvent 1, dupEvent 2] 101 0 {} (dupEvent 1)).1
          (dupEvent 2)).2.length = 1) := by
  decide

/-- Witness for C3 at a concrete input: the sequential flow of
`test_dedupe` — the second evaluation of a shared key creates no
row. -/
theorem c3_dedupe_witness :
    (apply_event [testPolicy false] [dupEvent 1, dupEvent 2] 102 0
        (apply_event [testPolicy false] [dupEvent 1] 101 0 {} (dupEvent 1)).1
        (dupEvent 2)).2 = [] :=
  c3_dedupe_at_most_once.2 [testPolicy false] [dupEvent 1] [dupEvent 1, dupEvent 2]
    101 102 0 0 {} (dupEvent 1) (dupEvent 2) "a" rfl rfl (by decide) (by decide)
    (by decide)

/-! ### C8: malformed-rule tolerance -/

/-- A zero-point, amountless candidate is always rejected whole by
the cap enforcer. -/
theorem apply_caps_zero_none (ledgers : List PenaltyLedger) (now mstart : Nat) (uid : Nat)
    (policy : PenaltyPolicy) :
    apply_caps ledgers now mstart uid policy 0 none = (0, none) := by
  simp only [apply_caps, monthClamp]
  cases hc : policy.caps_daily_points with
  | none => rfl
  | some m =>
      by_cases h : m ≤ dailyPoints ledgers uid policy.id (startOfDay now)
      · simp [h]
      · push_neg at h
        simp only [if_neg (not_le.mpr h)]
        rw [min_eq_left (by omega : (0 : Int) ≤ m - dailyPoints ledgers uid policy.id
          (startOfDay now))]

/-- C8 (amended).  Malformed-rule tolerance: a rule missing `when` is
skipped entirely and evaluation of the remaining rules continues; a
rule missing `points` is evaluated with `points = 0`, so with no
`amount` (and no negative per-occurrence points cap) it produces no
ledger row either; in the functional model no evaluation ever raises.
However a rule missing `points` that carries an `amount` is *not*
skipped — it can produce a ledger row with zero points (see the
counterexample). -/
theorem c8_malformed_rule_tolerance :
    (∀ (events : List PenaltyEvent) (now mstart : Nat) (e : PenaltyEvent)
        (policy : PenaltyPolicy) (st : EvalState) (rule : Rule),
      rule.«when» = none → evalRule events now mstart e policy st rule = st) ∧
    (∀ (events : List PenaltyEvent) (now mstart : Nat) (e : PenaltyEvent)
        (policy : PenaltyPolicy) (st : EvalState) (rule : Rule),
      rule.points = none → rule.amount = none →
      (∀ c, rule.per_occurrence_cap_points = some c → 0 ≤ c) →
      evalRule events now mstart e policy st rule = st) ∧
    (∀ (events : List PenaltyEvent) (now mstart : Nat) (e : PenaltyEvent)
        (policy : PenaltyPolicy) (st : EvalState) (rule : Rule) (rest : List Rule),
      policy.rules = rule :: rest → rule.«when» = none →
      evalPolicy events now mstart e policy st =
        rest.foldl (evalRule events now mstart e policy) st) := by
  have hwhen : ∀ (events : List PenaltyEvent) (now mstart : Nat) (e : PenaltyEvent)
      (policy : PenaltyPolicy) (st : EvalState) (rule : Rule),
      rule.«when» = none → evalRule events now mstart e policy st rule = st := by
    intro events now mstart e policy st rule h
    have : rule.«when» ≠ some e.source := by
      rw [h]
      exact Option.noConfusion
    simp [evalRule, this]
  refine ⟨hwhen, ?_, ?_⟩
  · intro events now mstart e policy st rule hpts hamt hcap
    have hcand : candPoints rule = 0 := by
      cases hc : rule.per_occurrence_cap_points with
      | none => simp [candPoints, hc, hpts]
      | some c =>
          have := hcap c hc
          simp [candPoints, hc, hpts]
          omega
    have hcanda : candAmount rule = none := by
      cases hc : rule.per_occurrence_cap_amount with
      | none => simp [candAmount, hc, hamt]
      | some c => simp [candAmount, hc, hamt]
    by_cases h1 : rule.«when» ≠ some e.source
    · simp [evalRule, h1]
    · by_cases h2 : ¬ threshold_pass rule.thresholds e.payload
      · simp [evalRule, h1, h2]
      · by_cases h3 : grace_applies events now e rule
        · simp [evalRule, h1, h2, h3]
        · by_cases h4 : cooldown_applies st.cooldowns now e rule
          · simp [evalRule, h1, h2, h3, h4]
          · by_cases h5 : dedupe_applies events e
            · simp [evalRule, h1, h2, h3, h4, h5]
            · simp [evalRule, h1, h2, h3, h4, h5, hcand, hcanda,
                apply_caps_zero_none, amountFalsy]
  · intro events now mstart e policy st rule rest hrules hw
    rw [evalPolicy, hrules, List.foldl_cons, hwhen events now mstart e policy st rule hw]



/-- Counterexample to C8 as stated: a rule missing its `points` field
but carrying `amount: 3` is *not* skipped — evaluating a matching
`late` event creates a ledger row (with 0 points and amount 3), while
the claim predicts no ledger row at all. -/
theorem c8_missing_points_with_amount_fires :
    ¬ ((apply_event [amountOnlyPolicy] [lateEvent 1 none] 101 0 {} (lateEvent 1 none)).2
        = []) := by
  decide

/-- Witness for C8 at a concrete input: a rule with neither `when`
nor anything else set is skipped, leaving the state untouched. -/
theorem c8_malformed_rule_witness :
    evalRule [lateEvent 1 none] 101 0 (lateEvent 1 none) (testPolicy false) {}
      ({} : Rule) = ({} : EvalState) :=
  c8_malformed_rule_tolerance.1 [lateEvent 1 none] 101 0 (lateEvent 1 none)
    (testPolicy false) {} ({} : Rule) rfl

/-! ### C2: daily cap monotonicity -/



theorem startOfDay_le (t : Nat) : startOfDay t ≤ t := Nat.div_mul_le_self t 1440

/-- One rule evaluation preserves the cap invariant of any policy id
whose policies all carry the daily cap `P`. -/
theorem evalRule_cap_inv (events : List PenaltyEvent) (now mstart : Nat) (e : PenaltyEvent)
    (policy : PenaltyPolicy) (st : EvalState) (rule : Rule) (pid : Nat) (P : Int) (D : Nat)
    (hpol : policy.id = pid → policy.caps_daily_points = some P)
    (hday : startOfDay now = D)
    (hinv : CapInv pid P D st) :
    CapInv pid P D (evalRule events now mstart e policy st rule) := by
  rcases evalRule_cases events now mstart e policy st rule with h | ⟨hne, h⟩
  · rw [h]
    exact hinv
  · intro uid
    have hled : (evalRule events now mstart e policy st rule).ledgers =
        st.ledgers ++ [newLedgerRow st e policy now
          (apply_caps st.ledgers now mstart e.user_id policy (candPoints rule)
            (candAmount rule))] := by
      rw [h]
    rw [hled, dailyPoints_append]
    simp only [newLedgerRow]
    by_cases hpid : policy.id = pid
    · have hcaps := hpol hpid
      by_cases htot : P ≤ dailyPoints st.ledgers e.user_id policy.id (startOfDay now)
      · exfalso
        apply hne
        rw [apply_caps_exhausted st.ledgers now mstart e.user_id policy (candPoints rule)
          (candAmount rule) P hcaps htot]
        exact ⟨rfl, rfl⟩
      · push_neg at htot
        have hle := apply_caps_le st.ledgers now mstart e.user_id policy (candPoints rule)
          (candAmount rule) P hcaps htot
        by_cases huid : e.user_id = uid
        · rw [if_pos ⟨huid, hpid, hday ▸ startOfDay_le now⟩]
          have hrw : dailyPoints st.ledgers e.user_id policy.id (startOfDay now) =
              dailyPoints st.ledgers uid pid D := by
            rw [huid, hpid, hday]
          rw [hrw] at hle
          have := hinv uid
          omega
        · rw [if_neg (fun hcond => huid hcond.1)]
          have := hinv uid
          omega
    · rw [if_neg (fun hcond => hpid hcond.2.1)]
      have := hinv uid
      omega

/-- A policy's rule loop preserves the cap invariant. -/
theorem evalPolicy_cap_inv (events : List PenaltyEvent) (now mstart : Nat)
    (e : PenaltyEvent) (policy : PenaltyPolicy) (st : EvalState) (pid : Nat) (P : Int)
    (D : Nat)
    (hpol : policy.id = pid → policy.caps_daily_points = some P)
    (hday : startOfDay now = D)
    (hinv : CapInv pid P D st) :
    CapInv pid P D (evalPolicy events now mstart e policy st) :=
  foldl_inv _ (CapInv pid P D) policy.rules st
    (fun s' r _ hs => evalRule_cap_inv events now mstart e policy s' r pid P D hpol hday hs)
    hinv

/-- One full `apply_event` call preserves the cap invariant. -/
theorem apply_event_cap_inv (policies : List PenaltyPolicy) (events : List PenaltyEvent)
    (now mstart : Nat) (st : EvalState) (e : PenaltyEvent) (pid : Nat) (P : Int) (D : Nat)
    (hpolicies : ∀ q ∈ policies, q.id = pid → q.caps_daily_points = some P)
    (hday : startOfDay now = D)
    (hinv : CapInv pid P D st) :
    CapInv pid P D (apply_event policies events now mstart st e).1 := by
  show CapInv pid P D
    ((policies_for policies e).foldl
      (fun acc p => evalPolicy events now mstart e p acc) { st with created := [] })
  apply foldl_inv _ (CapInv pid P D) (policies_for policies e) { st with created := [] }
  · intro s' p hp hs
    exact evalPolicy_cap_inv events now mstart e p s' pid P D
      (hpolicies p (mem_policies_for policies e p hp)) hday hs
  · exact hinv

/-- C2.  Daily cap monotonicity: over any sequence of evaluations
within one UTC day against a policy table whose policies of id `pid`
all cap daily points at `P`, every user's same-day ledger point total
under `pid` never exceeds `P` (given it started within the budget,
e.g. from an empty table); when today's total already reaches or
exceeds `P` the cap enforcer returns `(0, none)` and the rule creates
no ledger row; below the cap, the candidate is clamped to at most the
remaining budget `P - total`. -/
theorem c2_daily_cap_monotonic :
    (∀ (policies : List PenaltyPolicy) (pid : Nat) (P : Int) (D : Nat)
        (trace : List EvalCall) (st₀ : EvalState),
      (∀ q ∈ policies, q.id = pid → q.caps_daily_points = some P) →
      (∀ c ∈ trace, startOfDay c.now = D) →
      (∀ uid, dailyPoints st₀.ledgers uid pid D ≤ P) →
      ∀ uid, dailyPoints (runTrace policies trace st₀).ledgers uid pid D ≤ P) ∧
    (∀ (ledgers : List PenaltyLedger) (now mstart : Nat) (uid : Nat)
        (policy : PenaltyPolicy) (pts : Int) (amt : Option Rat) (P : Int),
      policy.caps_daily_points = some P →
      P ≤ dailyPoints ledgers uid policy.id (startOfDay now) →
      apply_caps ledgers now mstart uid policy pts amt = (0, none)) ∧
    (∀ (ledgers : List PenaltyLedger) (now mstart : Nat) (uid : Nat)
        (policy : PenaltyPolicy) (pts : Int) (amt : Option Rat) (P : Int),
      policy.caps_daily_points = some P →
      dailyPoints ledgers uid policy.id (startOfDay now) < P →
      (apply_caps ledgers now mstart uid policy pts amt).1 ≤
        P - dailyPoints ledgers uid policy.id (startOfDay now)) ∧
    (∀ (events : List PenaltyEvent) (now mstart : Nat) (e : PenaltyEvent)
        (policy : PenaltyPolicy) (st : EvalState) (rule : Rule) (P : Int),
      policy.caps_daily_points = some P →
      P ≤ dailyPoints st.ledgers e.user_id policy.id (startOfDay now) →
      evalRule events now mstart e policy st rule = st) := by
  refine ⟨?_, ?_, ?_, ?_⟩
  · intro policies pid P D trace st₀ hpol hday hinv
    exact foldl_inv _ (CapInv pid P D) trace st₀
      (fun s' c hc hs =>
        apply_event_cap_inv policies c.events c.now c.mstart s' c.e pid P D hpol
          (hday c hc) hs)
      hinv
  · intro ledgers now mstart uid policy pts amt P hc h
    exact apply_caps_exhausted ledgers now mstart uid policy pts amt P hc h
  · intro ledgers now mstart uid policy pts amt P hc h
    exact apply_caps_le ledgers now mstart uid policy pts amt P hc h
  · intro events now mstart e policy st rule P hc h
    rcases evalRule_cases events now mstart e policy st rule with hcase | ⟨hne, _⟩
    · exact hcase
    · exfalso
      apply hne
      rw [apply_caps_exhausted st.ledgers now mstart e.user_id policy (candPoints rule)
        (candAmount rule) P hc h]
      exact ⟨rfl, rfl⟩



/-- Witness for C2 at a concrete input: the reference scenario (policy
with `points: 5`, `grace.count_per_day: 1`, `caps.daily.points: 10`,
four same-day events) — user 1's daily total stays within the cap of
10, and indeed the run produces exactly the rows `[5, 5]` asserted by
`test_grace_and_caps`. -/
theorem c2_daily_cap_monotonic_witness :
    dailyPoints (runTrace [testPolicy true] c2Trace {}).ledgers 1 1 0 ≤ 10 ∧
    (runTrace [testPolicy true] c2Trace {}).ledgers.map (fun l => l.points) = [5, 5] := by
  constructor
  · exact c2_daily_cap_monotonic.1 [testPolicy true] 1 10 0 c2Trace {}
      (by intro q hq; simp only [List.mem_singleton] at hq; subst hq; intro _; rfl)
      (by decide)
      (by intro uid; norm_num [dailyPoints])
      1
  · decide

end TasksBot
